import Mathlib

/-!
Verification development for the period-return engine of `src/App.js`
(the `fetchStockData` core: the `PERIODS` table, `getYearAveragePrice`,
the nearest-timestamp scan for day-based periods, and the return math).

Modelling conventions:
* JS numbers are modelled as `ℚ` (prices, investment) and `ℤ` (unix
  timestamps in seconds); `.toFixed` display formatting is presentation
  only and the modelled fields carry the underlying numeric values.
* A possibly-missing JS number (`null`/`undefined`, e.g. a gap in the
  price arrays or an out-of-range index) is `Option ℚ` with `none` for
  the missing value.  JS truthiness of such a value (`prices[i] && ...`,
  `if (!pastAdjPrice)`) is `truthy`: present and nonzero.
* `new Date(y, m, d).getTime() / 1000` is modelled by the proleptic
  Gregorian (civil) calendar at UTC offset 0, `jsDateSec` (month
  0-based as in JS).
* A thrown `TypeError` (dereferencing `.toFixed` of a missing value, or
  `.length` of a missing array) aborts the whole computation; the run is
  therefore modelled in `Except String`.
-/

namespace BackTracking

/-- JS truthiness of a possibly-missing number: `null`/`undefined` and `0`
are falsy, every other number is truthy. -/
def truthy : Option ℚ → Bool
  | none => false
  | some v => decide (v ≠ 0)

/-- JS array indexing `a[i]` on a price array: out-of-range reads give
`undefined`, modelled as `none`. -/
def idx (l : List (Option ℚ)) (i : ℕ) : Option ℚ := l.getD i none

/-- JS array indexing `timestamps[i]`; the evaluator only reads indices
`i < timestamps.length`, the default is never observed there. -/
def tsAt (l : List ℤ) (i : ℕ) : ℤ := l.getD i 0

/-- The two lookback strategies of the `PERIODS` table: each entry of the
source carries `useYearAvg` plus exactly one of the numeric fields `days`
(read only when `useYearAvg` is false) or `years` (read only when it is
true), i.e. a tagged union. -/
inductive Lookback
  | daysBack (days : ℤ)
  | yearAvg (years : ℤ)
deriving DecidableEq, Repr

/-- One entry of the `PERIODS` configuration table. -/
structure Period where
  label : String
  lookback : Lookback
deriving DecidableEq, Repr

/-- The `useYearAvg` flag of a `PERIODS` entry. -/
def Period.useYearAvg (p : Period) : Bool :=
  match p.lookback with
  | .yearAvg _ => true
  | .daysBack _ => false

/-- The fixed 9-entry `PERIODS` table of `src/App.js` lines 5-15. -/
def PERIODS : List Period :=
  [ ⟨"1주일 전", .daysBack 7⟩,
    ⟨"1개월 전", .daysBack 30⟩,
    ⟨"3개월 전", .daysBack 90⟩,
    ⟨"6개월 전", .daysBack 180⟩,
    ⟨"1년 전", .daysBack 365⟩,
    ⟨"2년 전", .yearAvg 2⟩,
    ⟨"3년 전", .yearAvg 3⟩,
    ⟨"5년 전", .yearAvg 5⟩,
    ⟨"10년 전", .yearAvg 10⟩ ]

/-- Days from the unix epoch to the civil date `y-m-d` (month 1-based),
the standard civil-calendar computation. -/
def daysFromCivil (y m d : ℤ) : ℤ :=
  let y' := if m ≤ 2 then y - 1 else y
  let era := (if 0 ≤ y' then y' else y' - 399) / 400
  let yoe := y' - era * 400
  let doy := (153 * (m + (if 2 < m then -3 else 9)) + 2) / 5 + d - 1
  let doe := yoe * 365 + yoe / 4 - yoe / 100 + doy
  era * 146097 + doe - 719468

/-- `new Date(y, m, d).getTime() / 1000` (JS month 0-based), modelled at
UTC offset 0 as the unix second of local midnight of that civil date. -/
def jsDateSec (y m d : ℤ) : ℤ := 86400 * daysFromCivil y (m + 1) d

/-- The qualification test of the loop body of `getYearAveragePrice`
(line 80): `timestamps[i] >= yearStart && timestamps[i] <= yearEnd &&
prices[i] && rawPrices[i]`. -/
def qualifies (timestamps : List ℤ) (prices raws : List (Option ℚ))
    (lo hi : ℤ) (i : ℕ) : Bool :=
  decide (lo ≤ tsAt timestamps i) && decide (tsAt timestamps i ≤ hi)
    && truthy (idx prices i) && truthy (idx raws i)

/-- The accumulation loop of `getYearAveragePrice` (lines 78-85):
`(adjSum, rawSum, count)` over the indices of `timestamps`. -/
def yearLoop (timestamps : List ℤ) (prices raws : List (Option ℚ))
    (lo hi : ℤ) : ℚ × ℚ × ℕ :=
  (List.range timestamps.length).foldl
    (fun s i =>
      if qualifies timestamps prices raws lo hi i then
        (s.1 + (idx prices i).getD 0, s.2.1 + (idx raws i).getD 0, s.2.2 + 1)
      else s)
    (0, 0, 0)

/-- `getYearAveragePrice` of `src/App.js` lines 73-88: the pair
`(adjAvg, rawAvg)` over the calendar-year window
`[new Date(targetYear,0,1), new Date(targetYear,11,31)]`, or `null` when
no point qualifies. -/
def getYearAveragePrice (timestamps : List ℤ) (prices raws : List (Option ℚ))
    (currentYear yearsAgo : ℤ) : Option (ℚ × ℚ) :=
  let targetYear := currentYear - yearsAgo
  let yearStart := jsDateSec targetYear 0 1
  let yearEnd := jsDateSec targetYear 11 31
  let s := yearLoop timestamps prices raws yearStart yearEnd
  if s.2.2 = 0 then none else some (s.1 / (s.2.2 : ℚ), s.2.1 / (s.2.2 : ℚ))

/-- `diff < minDiff` of line 108, with `none` standing for the initial
`Infinity`. -/
def ltOpt (d : ℤ) : Option ℤ → Bool
  | none => true
  | some m => decide (d < m)

/-- One iteration of the nearest-timestamp scan (lines 106-112): update
`(closestIndex, minDiff)` when `diff < minDiff && prices[i]`. -/
def scanStep (timestamps : List ℤ) (prices : List (Option ℚ)) (target : ℤ)
    (s : ℕ × Option ℤ) (i : ℕ) : ℕ × Option ℤ :=
  let diff := |tsAt timestamps i - target|
  if ltOpt diff s.2 && truthy (idx prices i) then (i, some diff) else s

/-- The whole nearest-timestamp scan of lines 103-112, from the initial
state `closestIndex = 0`, `minDiff = Infinity`. -/
def scanClosest (timestamps : List ℤ) (prices : List (Option ℚ))
    (target : ℤ) : ℕ × Option ℤ :=
  (List.range timestamps.length).foldl (scanStep timestamps prices target) (0, none)

/-- The baseline pair `(pastAdjPrice, pastRawPrice)` a period resolves to
(lines 92-115), before the `!pastAdjPrice` guard: the year-average pair
for `useYearAvg` entries (both `none` when `getYearAveragePrice` returned
`null`), and the prices at the scanned `closestIndex` for day entries. -/
def pastPrices (timestamps : List ℤ) (prices raws : List (Option ℚ))
    (endDate currentYear : ℤ) (p : Period) : Option ℚ × Option ℚ :=
  match p.lookback with
  | .yearAvg y =>
    match getYearAveragePrice timestamps prices raws currentYear y with
    | none => (none, none)
    | some (a, r) => (some a, some r)
  | .daysBack d =>
    let target := endDate - d * 86400
    let ci := (scanClosest timestamps prices target).1
    (idx prices ci, idx raws ci)

/-- One emitted period result (lines 125-134), with the numeric values
underlying the `.toFixed` display strings. -/
structure PeriodResult where
  period : String
  pastPrice : ℚ
  shares : ℚ
  currentValue : ℚ
  profit : ℚ
  profitRate : ℚ
  isProfit : Bool
  isYearAvg : Bool
deriving DecidableEq, Repr

/-- The per-period body of the `PERIODS.map` callback (lines 91-134):
`null` (skip) when the resolved adjusted baseline is falsy, a thrown
`TypeError` when the raw baseline of a day period is missing at the
selected index (`pastRawPrice.toFixed(2)` on `undefined`/`null`), and
otherwise the result record. `currentPrice?` is `rawPrices[rawPrices.length
- 1]`; when it is missing the whole run is discarded later (line 139), so
the `getD 0` placeholder inside an eventually-discarded record is never
observed. -/
def computePeriod (timestamps : List ℤ) (prices raws : List (Option ℚ))
    (currentPrice? : Option ℚ) (investment : ℚ) (endDate currentYear : ℤ)
    (p : Period) : Except String (Option PeriodResult) :=
  let pair := pastPrices timestamps prices raws endDate currentYear p
  if truthy pair.1 then
    match pair.2 with
    | none => .error "TypeError: toFixed of missing pastRawPrice"
    | some rawP =>
      let adjP := pair.1.getD 0
      let shares := investment / adjP
      let currentValue := shares * currentPrice?.getD 0
      let profit := currentValue - investment
      let profitRate := (currentValue - investment) / investment * 100
      .ok (some ⟨p.label, rawP, shares, currentValue, profit, profitRate,
                 decide (0 ≤ profit), p.useYearAvg⟩)
  else .ok none

/-- `PERIODS.map(...)` with a body that can throw: the list of per-period
values, or the first thrown error, which discards the whole map. -/
def mapPeriods (f : Period → Except String (Option PeriodResult)) :
    List Period → Except String (List (Option PeriodResult))
  | [] => .ok []
  | p :: ps =>
    match f p with
    | .error e => .error e
    | .ok r =>
      match mapPeriods f ps with
      | .error e => .error e
      | .ok rs => .ok (r :: rs)

/-- The value actually contributed to the filtered result list by one
period: its record when the body returned one, nothing when it skipped
(and nothing under an error, where no list is produced at all). -/
def okJoin (e : Except String (Option PeriodResult)) : Option PeriodResult :=
  match e with
  | .ok v => v
  | .error _ => none

/-- `adjClose || rawPrices` of line 56: the adjusted series, falling back
to the raw series when the upstream adjusted-close array is absent. -/
def jsOr (a? : Option (List (Option ℚ))) (b : List (Option ℚ)) :
    List (Option ℚ) :=
  match a? with
  | some a => a
  | none => b

/-- The data handed to the presentation layer by `setResults`
(lines 137-142), restricted to the evaluator's outputs. -/
structure Output where
  currentPrice : ℚ
  investment : ℚ
  periods : List PeriodResult
deriving DecidableEq, Repr

/-- The evaluation core of `fetchStockData` (lines 51-142): reading the
current price from the raw array, mapping `PERIODS` through the period
body, filtering out the skipped periods, and the two `TypeError` aborts
(a missing raw-price array at line 57, a missing current price at the
`currentPrice.toFixed(2)` of line 139 — the latter is raised after the
period map runs, still discarding everything). -/
def runEvaluation (timestamps : List ℤ)
    (adjClose? rawPrices? : Option (List (Option ℚ)))
    (investment : ℚ) (endDate currentYear : ℤ) : Except String Output :=
  match rawPrices? with
  | none => .error "TypeError: length of missing rawPrices"
  | some rawPrices =>
    let prices := jsOr adjClose? rawPrices
    let currentPrice? := idx rawPrices (rawPrices.length - 1)
    match mapPeriods
        (computePeriod timestamps prices rawPrices currentPrice?
          investment endDate currentYear) PERIODS with
    | .error e => .error e
    | .ok rs =>
      match currentPrice? with
      | none => .error "TypeError: toFixed of missing currentPrice"
      | some cp => .ok ⟨cp, investment, rs.filterMap id⟩

/-! ### Spec-side (declarative) definitions

These follow the words of the specification, for comparison with the
definitions translated from the source. -/

/-- Declarative mean over a timestamp window: the separately-averaged
adjusted and raw prices over the qualifying indices of the series, `none`
when no index qualifies. -/
def windowMean (timestamps : List ℤ) (prices raws : List (Option ℚ))
    (lo hi : ℤ) : Option (ℚ × ℚ) :=
  let q := (List.range timestamps.length).filter (qualifies timestamps prices raws lo hi)
  if q.length = 0 then none
  else some ((q.map (fun i => (idx prices i).getD 0)).sum / (q.length : ℚ),
             (q.map (fun i => (idx raws i).getD 0)).sum / (q.length : ℚ))

/-- The year-average baseline exactly as the claim words it: the window is
`[Jan 1 00:00, Dec 31 23:59:59]` of `targetYear` — the upper bound is the
last second of Dec 31. -/
def specYearAvgClaim (timestamps : List ℤ) (prices raws : List (Option ℚ))
    (currentYear yearsAgo : ℤ) : Option (ℚ × ℚ) :=
  let targetYear := currentYear - yearsAgo
  windowMean timestamps prices raws (jsDateSec targetYear 0 1)
    (jsDateSec targetYear 11 31 + 86399)

/-- The year-average baseline with the window the code actually uses:
`[Jan 1 00:00, Dec 31 00:00]` of `targetYear` — the upper bound is the
midnight that begins Dec 31 (`new Date(targetYear, 11, 31)`). -/
def specYearAvgAmended (timestamps : List ℤ) (prices raws : List (Option ℚ))
    (currentYear yearsAgo : ℤ) : Option (ℚ × ℚ) :=
  let targetYear := currentYear - yearsAgo
  windowMean timestamps prices raws (jsDateSec targetYear 0 1)
    (jsDateSec targetYear 11 31)

/-! ### Helper lemmas -/

theorem truthy_iff {x : Option ℚ} : truthy x = true ↔ ∃ v, x = some v ∧ v ≠ 0 := by
  cases x with
  | none => simp [truthy]
  | some v => simp [truthy]

theorem truthy_some {v : ℚ} (h : v ≠ 0) : truthy (some v) = true := by
  simp [truthy, h]

/-- The accumulation loop equals the declarative sums and count over the
filtered index list. -/
theorem yearLoop_spec (ts : List ℤ) (ps rs : List (Option ℚ)) (lo hi : ℤ) (n : ℕ) :
    (List.range n).foldl
      (fun s i =>
        if qualifies ts ps rs lo hi i then
          (s.1 + (idx ps i).getD 0, s.2.1 + (idx rs i).getD 0, s.2.2 + 1)
        else s)
      (0, 0, 0) =
    ((((List.range n).filter (qualifies ts ps rs lo hi)).map
        (fun i => (idx ps i).getD 0)).sum,
     (((List.range n).filter (qualifies ts ps rs lo hi)).map
        (fun i => (idx rs i).getD 0)).sum,
     ((List.range n).filter (qualifies ts ps rs lo hi)).length) := by
  induction n with
  | zero => rfl
  | succ n ih =>
    rw [List.range_succ, List.foldl_append, ih, List.filter_append]
    by_cases h : qualifies ts ps rs lo hi n = true
    · simp [h]
    · simp [h]

/-- `getYearAveragePrice` computes the declarative window mean with the
code's window bounds. -/
theorem getYearAveragePrice_eq_windowMean (ts : List ℤ) (ps rs : List (Option ℚ))
    (cy y : ℤ) :
    getYearAveragePrice ts ps rs cy y =
      windowMean ts ps rs (jsDateSec (cy - y) 0 1) (jsDateSec (cy - y) 11 31) := by
  simp only [getYearAveragePrice, yearLoop, windowMean]
  rw [yearLoop_spec]

section Scan

variable (ts : List ℤ) (ps : List (Option ℚ)) (target : ℤ)

/-- Invariant of the nearest-timestamp scan when no scanned index is
truthy: the state stays at its initial value. -/
theorem scan_no_truthy (n : ℕ)
    (h : ∀ i, i < n → truthy (idx ps i) = false) :
    (List.range n).foldl (scanStep ts ps target) (0, none) = (0, none) := by
  induction n with
  | zero => rfl
  | succ n ih =>
    rw [List.range_succ, List.foldl_append,
        ih (fun i hi => h i (Nat.lt_succ_of_lt hi))]
    simp [scanStep, h n (Nat.lt_succ_self n)]

/-- Invariant of the nearest-timestamp scan when some scanned index is
truthy: the final state holds the first index attaining the minimum
distance among the truthy indices, together with that distance. -/
theorem scan_invariant (n : ℕ) (c : ℕ) (m : Option ℤ)
    (hfold : (List.range n).foldl (scanStep ts ps target) (0, none) = (c, m))
    (h : ∃ i, i < n ∧ truthy (idx ps i) = true) :
    m = some |tsAt ts c - target| ∧ c < n ∧ truthy (idx ps c) = true ∧
      (∀ j, j < n → truthy (idx ps j) = true →
        |tsAt ts c - target| ≤ |tsAt ts j - target|) ∧
      (∀ j, j < c → truthy (idx ps j) = true →
        |tsAt ts c - target| < |tsAt ts j - target|) := by
  induction n generalizing c m with
  | zero =>
    obtain ⟨i, hi, -⟩ := h
    exact absurd hi (Nat.not_lt_zero i)
  | succ n ih =>
    have hsucc : List.range (n + 1) = List.range n ++ [n] := by
      rw [← Nat.succ_eq_add_one, List.range_succ]
    rw [hsucc, List.foldl_append] at hfold
    rcases hprev : (List.range n).foldl (scanStep ts ps target) (0, none) with ⟨c', m'⟩
    rw [hprev] at hfold
    simp only [List.foldl_cons, List.foldl_nil, scanStep] at hfold
    by_cases hex : ∃ i, i < n ∧ truthy (idx ps i) = true
    · obtain ⟨hm', hc'lt, hc'tr, hle, hstrict⟩ := ih c' m' hprev hex
      by_cases hcond : (ltOpt |tsAt ts n - target| m' && truthy (idx ps n)) = true
      · rw [if_pos hcond] at hfold
        injection hfold with h1 h2
        subst h1; subst h2
        rw [Bool.and_eq_true] at hcond
        obtain ⟨hlt, htn⟩ := hcond
        rw [hm'] at hlt
        simp only [ltOpt, decide_eq_true_iff] at hlt
        refine ⟨rfl, Nat.lt_succ_self n, htn, ?_, ?_⟩
        · intro j hj htj
          rcases Nat.lt_succ_iff_lt_or_eq.mp hj with hj' | hj'
          · exact le_of_lt (lt_of_lt_of_le hlt (hle j hj' htj))
          · subst hj'; exact le_refl _
        · intro j hj htj
          exact lt_of_lt_of_le hlt (hle j hj htj)
      · rw [if_neg hcond] at hfold
        injection hfold with h1 h2
        subst h1; subst h2
        refine ⟨hm', Nat.lt_succ_of_lt hc'lt, hc'tr, ?_, hstrict⟩
        intro j hj htj
        rcases Nat.lt_succ_iff_lt_or_eq.mp hj with hj' | hj'
        · exact hle j hj' htj
        · subst hj'
          rw [hm'] at hcond
          simp only [htj, Bool.and_true, ltOpt, decide_eq_true_iff] at hcond
          exact not_lt.mp hcond
    · have hall : ∀ j, j < n → truthy (idx ps j) = false := by
        intro j hj
        by_contra hc
        exact hex ⟨j, hj, by simpa using hc⟩
      have h0 := scan_no_truthy ts ps target n hall
      rw [hprev] at h0
      injection h0 with e1 e2
      subst e1; subst e2
      obtain ⟨i, hi, hti⟩ := h
      have hin : i = n := by
        rcases Nat.lt_succ_iff_lt_or_eq.mp hi with hi' | hi'
        · exact absurd hti (by simp [hall i hi'])
        · exact hi'
      subst hin
      rw [if_pos (by simp [ltOpt, hti])] at hfold
      injection hfold with h1 h2
      subst h1; subst h2
      refine ⟨rfl, Nat.lt_succ_self i, hti, ?_, ?_⟩
      · intro j hj htj
        have hji : j = i := by
          rcases Nat.lt_succ_iff_lt_or_eq.mp hj with hj' | hj'
          · exact absurd htj (by simp [hall j hj'])
          · exact hj'
        subst hji; exact le_refl _
      · intro j hj htj
        exact absurd htj (by simp [hall j hj])

end Scan

/-- A successful `mapPeriods` run is the per-period `okJoin` values in
order, and every period's body returned without throwing. -/
theorem mapPeriods_ok (f : Period → Except String (Option PeriodResult)) :
    ∀ (l : List Period) (rs : List (Option PeriodResult)),
      mapPeriods f l = .ok rs →
      rs = l.map (fun p => okJoin (f p)) ∧ ∀ p ∈ l, ∃ v, f p = .ok v := by
  intro l
  induction l with
  | nil =>
    intro rs h
    simp only [mapPeriods] at h
    injection h with h
    simp [h.symm]
  | cons p ps ih =>
    intro rs h
    simp only [mapPeriods] at h
    cases hf : f p with
    | error e => rw [hf] at h; exact absurd h (by simp)
    | ok r =>
      rw [hf] at h
      cases ht : mapPeriods f ps with
      | error e => rw [ht] at h; exact absurd h (by simp)
      | ok rest =>
        rw [ht] at h
        injection h with h
        obtain ⟨hrest, hall⟩ := ih rest ht
        subst h
        refine ⟨by simp [hrest, okJoin, hf], ?_⟩
        intro q hq
        rcases List.mem_cons.mp hq with hq | hq
        · subst hq; exact ⟨r, hf⟩
        · exact hall q hq

/-- A thrown body anywhere in the list makes the whole map throw. -/
theorem mapPeriods_error (f : Period → Except String (Option PeriodResult)) :
    ∀ (l : List Period) (p : Period), p ∈ l → (∀ v, f p ≠ .ok v) →
      ∃ e, mapPeriods f l = .error e := by
  intro l
  induction l with
  | nil => intro p hp; exact absurd hp (by simp)
  | cons q ps ih =>
    intro p hp hno
    simp only [mapPeriods]
    cases hf : f q with
    | error e => exact ⟨e, rfl⟩
    | ok r =>
      rcases List.mem_cons.mp hp with hp | hp
      · subst hp; exact absurd hf (hno r)
      · obtain ⟨e, he⟩ := ih p hp hno
        rw [he]
        exact ⟨e, rfl⟩

/-- When no body throws, the whole map succeeds. -/
theorem mapPeriods_total (f : Period → Except String (Option PeriodResult)) :
    ∀ (l : List Period), (∀ p ∈ l, ∃ v, f p = .ok v) →
      ∃ rs, mapPeriods f l = .ok rs := by
  intro l
  induction l with
  | nil => intro _; exact ⟨[], rfl⟩
  | cons p ps ih =>
    intro h
    obtain ⟨v, hv⟩ := h p (by simp)
    obtain ⟨rs, hrs⟩ := ih (fun q hq => h q (by simp [hq]))
    refine ⟨v :: rs, ?_⟩
    simp only [mapPeriods, hv, hrs]

/-- What a successful run determines: the current price is the last raw
price, and the emitted list is the in-order filtered `okJoin` of the
per-period bodies. -/
theorem runEvaluation_ok (ts : List ℤ) (adj? : Option (List (Option ℚ)))
    (raw : List (Option ℚ)) (inv : ℚ) (ed cy : ℤ) (o : Output)
    (h : runEvaluation ts adj? (some raw) inv ed cy = .ok o) :
    ∃ cp, idx raw (raw.length - 1) = some cp ∧
      o = ⟨cp, inv,
        PERIODS.filterMap (fun p =>
          okJoin (computePeriod ts (jsOr adj? raw) raw (some cp) inv ed cy p))⟩ := by
  simp only [runEvaluation] at h
  cases hm : mapPeriods
      (computePeriod ts (jsOr adj? raw) raw (idx raw (raw.length - 1)) inv ed cy)
      PERIODS with
  | error e => rw [hm] at h; exact absurd h (by simp)
  | ok rs =>
    rw [hm] at h
    cases hcp : idx raw (raw.length - 1) with
    | none => rw [hcp] at h hm; exact absurd h (by simp)
    | some cp =>
      rw [hcp] at h hm
      injection h with h
      obtain ⟨hrs, -⟩ := mapPeriods_ok _ PERIODS rs hm
      subst hrs
      refine ⟨cp, rfl, ?_⟩
      rw [← h]
      simp [List.filterMap_map, Function.comp]

/-- A falsy (missing or zero) adjusted baseline makes the period body
skip. -/
theorem computePeriod_skip (ts : List ℤ) (ps rs : List (Option ℚ))
    (cp? : Option ℚ) (inv : ℚ) (ed cy : ℤ) (p : Period)
    (h : truthy (pastPrices ts ps rs ed cy p).1 = false) :
    computePeriod ts ps rs cp? inv ed cy p = .ok none := by
  simp only [computePeriod, h]
  simp

/-- What an emitted record of the period body determines: the baseline
pair was resolved with a truthy adjusted price, and every field of the
record is the source's formula. -/
theorem computePeriod_ok_some (ts : List ℤ) (ps rs : List (Option ℚ))
    (cp? : Option ℚ) (inv : ℚ) (ed cy : ℤ) (p : Period) (r : PeriodResult)
    (h : computePeriod ts ps rs cp? inv ed cy p = .ok (some r)) :
    ∃ a rawP, pastPrices ts ps rs ed cy p = (some a, some rawP) ∧ a ≠ 0 ∧
      r = ⟨p.label, rawP, inv / a, inv / a * cp?.getD 0,
           inv / a * cp?.getD 0 - inv, (inv / a * cp?.getD 0 - inv) / inv * 100,
           decide (0 ≤ inv / a * cp?.getD 0 - inv), p.useYearAvg⟩ := by
  simp only [computePeriod] at h
  by_cases ht : truthy (pastPrices ts ps rs ed cy p).1 = true
  · rw [if_pos ht] at h
    obtain ⟨a, ha, hane⟩ := truthy_iff.mp ht
    cases hr : (pastPrices ts ps rs ed cy p).2 with
    | none => rw [hr] at h; exact absurd h (by simp)
    | some rawP =>
      rw [hr] at h
      injection h with h
      injection h with h
      refine ⟨a, rawP, ?_, hane, ?_⟩
      · rw [← ha, ← hr]
      · rw [← h, ha]
        simp
  · rw [if_neg ht] at h
    injection h with h
    exact absurd h (by simp)

deriving instance DecidableEq for Except

/-- `okJoin` yields a record only from a successful, non-skipping body. -/
theorem okJoin_eq_some {e : Except String (Option PeriodResult)}
    {r : PeriodResult} (h : okJoin e = some r) : e = .ok (some r) := by
  cases e with
  | ok v => simp only [okJoin] at h; rw [h]
  | error _ => simp [okJoin] at h

/-! ### Claim theorems -/

/-- C8: the period configuration is a fixed table of exactly 9 entries —
7, 30, 90, 180 and 365 days with the nearest-date (`daysBack`) strategy,
then 2, 3, 5 and 10 years with the calendar-year-average strategy, in
that order. -/
theorem claim8_periods_table :
    PERIODS.length = 9 ∧
    PERIODS.map Period.lookback =
      [.daysBack 7, .daysBack 30, .daysBack 90, .daysBack 180, .daysBack 365,
       .yearAvg 2, .yearAvg 3, .yearAvg 5, .yearAvg 10] ∧
    PERIODS.map Period.useYearAvg =
      [false, false, false, false, false, true, true, true, true] := by
  decide

/-- C1: every emitted result of a run satisfies the return formulas —
its shares are `investment / adjustedBaseline` for its period's resolved
(truthy) adjusted baseline, `currentValue = shares * currentRawPrice`,
`profit = currentValue - investment`, `profitRatePercent = profit /
investment * 100`, and `isProfit` holds exactly when `profit ≥ 0`. -/
theorem claim1_return_math (ts : List ℤ) (adj? : Option (List (Option ℚ)))
    (raw : List (Option ℚ)) (inv : ℚ) (ed cy : ℤ) (o : Output) (r : PeriodResult)
    (h : runEvaluation ts adj? (some raw) inv ed cy = .ok o)
    (hr : r ∈ o.periods) :
    r.currentValue = r.shares * o.currentPrice ∧
    r.profit = r.currentValue - inv ∧
    r.profitRate = r.profit / inv * 100 ∧
    (r.isProfit = true ↔ 0 ≤ r.profit) ∧
    ∃ p ∈ PERIODS, r.period = p.label ∧
      ∃ a, (pastPrices ts (jsOr adj? raw) raw ed cy p).1 = some a ∧ a ≠ 0 ∧
        r.shares = inv / a := by
  obtain ⟨cp, hcp, ho⟩ := runEvaluation_ok ts adj? raw inv ed cy o h
  subst ho
  simp only [List.mem_filterMap] at hr
  obtain ⟨p, hp, hokj⟩ := hr
  have hcv := okJoin_eq_some hokj
  obtain ⟨a, rawP, hpair, hane, hrec⟩ :=
    computePeriod_ok_some ts (jsOr adj? raw) raw (some cp) inv ed cy p r hcv
  subst hrec
  refine ⟨by simp, by simp, by simp, by simp [decide_eq_true_iff], ?_⟩
  exact ⟨p, hp, rfl, a, by rw [hpair], hane, rfl⟩

/-- Scenario for the C1 witness: a one-point series, raw-only prices,
investment 50; every day period resolves to that point, no year window is
populated. -/
def c1Out : Output :=
  match runEvaluation [100] none (some [some 10]) 50 100 2026 with
  | .ok o => o
  | .error _ => ⟨0, 0, []⟩

/-- The first emitted record of the C1 witness scenario. -/
def c1Res : PeriodResult := c1Out.periods.getD 0 ⟨"", 0, 0, 0, 0, 0, false, false⟩

unseal Rat.mul Rat.add Rat.sub Rat.inv in
/-- Witness for C1 at a concrete input. -/
theorem claim1_return_math_witness :
    c1Res.currentValue = c1Res.shares * c1Out.currentPrice ∧
    c1Res.profit = c1Res.currentValue - 50 ∧
    c1Res.profitRate = c1Res.profit / 50 * 100 ∧
    (c1Res.isProfit = true ↔ 0 ≤ c1Res.profit) ∧
    ∃ p ∈ PERIODS, c1Res.period = p.label ∧
      ∃ a, (pastPrices [100] (jsOr none [some 10]) [some 10] 100 2026 p).1 = some a ∧
        a ≠ 0 ∧ c1Res.shares = 50 / a :=
  claim1_return_math [100] none [some 10] 50 100 2026 c1Out c1Res
    (by decide) (by decide)

/-- C2: the baseline price exposed to the caller in `pastPrice` is the raw
baseline of the emitted result's period, while the adjusted baseline enters
only the implied-share computation. -/
theorem claim2_raw_displayed (ts : List ℤ) (adj? : Option (List (Option ℚ)))
    (raw : List (Option ℚ)) (inv : ℚ) (ed cy : ℤ) (o : Output) (r : PeriodResult)
    (h : runEvaluation ts adj? (some raw) inv ed cy = .ok o)
    (hr : r ∈ o.periods) :
    ∃ p ∈ PERIODS, r.period = p.label ∧
      (pastPrices ts (jsOr adj? raw) raw ed cy p).2 = some r.pastPrice ∧
      ∃ a, (pastPrices ts (jsOr adj? raw) raw ed cy p).1 = some a ∧ a ≠ 0 ∧
        r.shares = inv / a := by
  obtain ⟨cp, hcp, ho⟩ := runEvaluation_ok ts adj? raw inv ed cy o h
  subst ho
  simp only [List.mem_filterMap] at hr
  obtain ⟨p, hp, hokj⟩ := hr
  obtain ⟨a, rawP, hpair, hane, hrec⟩ :=
    computePeriod_ok_some ts (jsOr adj? raw) raw (some cp) inv ed cy p r
      (okJoin_eq_some hokj)
  subst hrec
  exact ⟨p, hp, rfl, by rw [hpair], a, by rw [hpair], hane, rfl⟩

/-- Scenario B input for the C2 witness: three points in calendar year
2024 with adjusted prices 10, 20, 30 and raw prices 11, 21, 31,
investment 1000, evaluated from early 2026. -/
def c2Out : Output :=
  match runEvaluation [1705276800, 1718409600, 1733011200]
      (some [some 10, some 20, some 30]) (some [some 11, some 21, some 31])
      1000 1770000000 2026 with
  | .ok o => o
  | .error _ => ⟨0, 0, []⟩

/-- The 2-years-ago (calendar-year-average) record of the C2 scenario. -/
def c2Res : PeriodResult := c2Out.periods.getD 5 ⟨"", 0, 0, 0, 0, 0, false, false⟩

unseal Rat.mul Rat.add Rat.sub Rat.inv in
/-- Witness for C2 at the Scenario B input: the adjusted mean is 20 and
the raw mean is 21; the displayed baseline is 21 and the shares are
1000 / 20 = 50. -/
theorem claim2_raw_displayed_witness :
    (∃ p ∈ PERIODS, c2Res.period = p.label ∧
      (pastPrices [1705276800, 1718409600, 1733011200]
        (jsOr (some [some 10, some 20, some 30]) [some 11, some 21, some 31])
        [some 11, some 21, some 31] 1770000000 2026 p).2 = some c2Res.pastPrice ∧
      ∃ a, (pastPrices [1705276800, 1718409600, 1733011200]
        (jsOr (some [some 10, some 20, some 30]) [some 11, some 21, some 31])
        [some 11, some 21, some 31] 1770000000 2026 p).1 = some a ∧ a ≠ 0 ∧
        c2Res.shares = 1000 / a) ∧
    c2Res.pastPrice = 21 ∧ c2Res.shares = 50 ∧ c2Res.isYearAvg = true :=
  ⟨claim2_raw_displayed [1705276800, 1718409600, 1733011200]
      (some [some 10, some 20, some 30]) [some 11, some 21, some 31]
      1000 1770000000 2026 c2Out c2Res (by decide) (by decide),
   by decide, by decide, by decide⟩

unseal Rat.mul Rat.add Rat.sub Rat.inv in
/-- C3 counterexample: a single point at Dec 31 12:00 of the target year
with both prices 30. Under the claim's inclusive window ending Dec 31
23:59:59 the baseline would be the mean (30, 30); the code's window ends
at the midnight beginning Dec 31, so the point does not qualify and the
period resolves no baseline. -/
theorem claim3_counterexample :
    getYearAveragePrice [1735646400] [some 30] [some 30] 2026 2 = none ∧
    specYearAvgClaim [1735646400] [some 30] [some 30] 2026 2 = some (30, 30) ∧
    jsDateSec (2026 - 2) 11 31 < 1735646400 ∧
    (1735646400 : ℤ) ≤ jsDateSec (2026 - 2) 11 31 + 86399 := by
  decide

/-- C3 amended: the calendar-year baseline is the pair of means (adjusted
and raw, averaged separately) over exactly the series points whose
timestamp lies in the inclusive window from Jan 1 00:00 to the midnight
beginning Dec 31 of `targetYear = currentYear - yearsAgo` and whose
adjusted and raw prices are both truthy; when no point qualifies, the
period is skipped. -/
theorem claim3_year_window_amended (ts : List ℤ) (ps rs : List (Option ℚ))
    (cy y : ℤ) :
    getYearAveragePrice ts ps rs cy y = specYearAvgAmended ts ps rs cy y ∧
    (getYearAveragePrice ts ps rs cy y = none →
      ∀ (cp? : Option ℚ) (inv : ℚ) (ed : ℤ) (lbl : String),
        computePeriod ts ps rs cp? inv ed cy ⟨lbl, .yearAvg y⟩ = .ok none) := by
  constructor
  · simp only [specYearAvgAmended]
    exact getYearAveragePrice_eq_windowMean ts ps rs cy y
  · intro hnone cp? inv ed lbl
    apply computePeriod_skip
    simp [pastPrices, hnone, truthy]

/-- C4: for every day-based period the baseline point is the first-scanned
(lowest-index) point minimising the distance to `endDate - n·86400` among
the points with a truthy adjusted price; equidistant candidates resolve to
the earlier index, and when no point has a truthy adjusted price the
period produces no result. -/
theorem claim4_nearest_selection (ts : List ℤ) (ps : List (Option ℚ)) (ed n : ℤ) :
    (∀ ci md, scanClosest ts ps (ed - n * 86400) = (ci, md) →
      (∃ i, i < ts.length ∧ truthy (idx ps i) = true) →
      ci < ts.length ∧ truthy (idx ps ci) = true ∧
      (∀ j, j < ts.length → truthy (idx ps j) = true →
        |tsAt ts ci - (ed - n * 86400)| ≤ |tsAt ts j - (ed - n * 86400)|) ∧
      (∀ j, j < ts.length → truthy (idx ps j) = true →
        |tsAt ts j - (ed - n * 86400)| = |tsAt ts ci - (ed - n * 86400)| →
        ci ≤ j)) ∧
    (∀ (rs : List (Option ℚ)) (cp? : Option ℚ) (inv : ℚ) (cy : ℤ) (lbl : String),
      (∀ i, truthy (idx ps i) = false) →
      computePeriod ts ps rs cp? inv ed cy ⟨lbl, .daysBack n⟩ = .ok none) := by
  constructor
  · intro ci md hscan hex
    obtain ⟨-, hlt, htr, hle, hstrict⟩ :=
      scan_invariant ts ps (ed - n * 86400) ts.length ci md hscan hex
    refine ⟨hlt, htr, hle, ?_⟩
    intro j hj htj heq
    by_contra hlt'
    have hjlt : j < ci := by omega
    exact absurd heq (ne_of_gt (hstrict j hjlt htj))
  · intro rs cp? inv cy lbl hall
    apply computePeriod_skip
    simp only [pastPrices]
    exact hall _

/-- Witness for C4: a two-point series equidistant from the target (both
50 seconds away) resolves to index 0, and a series with no truthy
adjusted price yields a skip. -/
theorem claim4_nearest_selection_witness :
    ((0 : ℕ) < ([100, 200] : List ℤ).length ∧
     truthy (idx [some 10, some 10] 0) = true ∧
     (∀ j, j < ([100, 200] : List ℤ).length →
       truthy (idx [some 10, some 10] j) = true →
       |tsAt [100, 200] 0 - (604950 - 7 * 86400)| ≤
         |tsAt [100, 200] j - (604950 - 7 * 86400)|) ∧
     (∀ j, j < ([100, 200] : List ℤ).length →
       truthy (idx [some 10, some 10] j) = true →
       |tsAt [100, 200] j - (604950 - 7 * 86400)| =
         |tsAt [100, 200] 0 - (604950 - 7 * 86400)| → (0 : ℕ) ≤ j)) ∧
    computePeriod [100] [none] [] none 1 604950 2026 ⟨"x", .daysBack 7⟩ = .ok none :=
  ⟨(claim4_nearest_selection [100, 200] [some 10, some 10] 604950 7).1 0 (some 50)
      (by decide) ⟨0, by decide, by decide⟩,
   (claim4_nearest_selection [100] [none] 604950 7).2 [] none 1 2026 "x"
      (fun i => by cases i <;> rfl)⟩

/-- When every record a per-period map emits carries its period's label,
the emitted labels form an in-order subsequence of the table's labels. -/
theorem filterMap_label_sublist (g : Period → Option PeriodResult)
    (hg : ∀ p r, g p = some r → r.period = p.label) :
    ∀ l : List Period,
      List.Sublist ((l.filterMap g).map PeriodResult.period) (l.map Period.label) := by
  intro l
  induction l with
  | nil => simp
  | cons p ps ih =>
    cases hp : g p with
    | none =>
      simp only [List.filterMap_cons, hp, List.map_cons]
      exact ih.cons p.label
    | some r =>
      simp only [List.filterMap_cons, hp, List.map_cons, hg p r hp]
      exact ih.cons₂ p.label

/-- C5: a missing-or-zero adjusted baseline makes the period skip (no
division by it ever reaches a result); the emitted list is the in-order
filtered per-period output, its labels are an in-order subsequence of the
period table's labels, and its length never exceeds the table's. -/
theorem claim5_skip_and_order (ts : List ℤ) (adj? : Option (List (Option ℚ)))
    (raw : List (Option ℚ)) (inv : ℚ) (ed cy : ℤ) (o : Output)
    (h : runEvaluation ts adj? (some raw) inv ed cy = .ok o) :
    o.periods = PERIODS.filterMap (fun p =>
      okJoin (computePeriod ts (jsOr adj? raw) raw (idx raw (raw.length - 1))
        inv ed cy p)) ∧
    List.Sublist (o.periods.map PeriodResult.period) (PERIODS.map Period.label) ∧
    o.periods.length ≤ PERIODS.length ∧
    (∀ (p : Period) (cp? : Option ℚ),
      (pastPrices ts (jsOr adj? raw) raw ed cy p).1 = none ∨
        (pastPrices ts (jsOr adj? raw) raw ed cy p).1 = some 0 →
      computePeriod ts (jsOr adj? raw) raw cp? inv ed cy p = .ok none) := by
  obtain ⟨cp, hcp, ho⟩ := runEvaluation_ok ts adj? raw inv ed cy o h
  subst ho
  have hlbl : ∀ p r,
      okJoin (computePeriod ts (jsOr adj? raw) raw (some cp) inv ed cy p) = some r →
      r.period = p.label := by
    intro p r hok
    obtain ⟨a, rawP, -, -, hrec⟩ :=
      computePeriod_ok_some ts (jsOr adj? raw) raw (some cp) inv ed cy p r
        (okJoin_eq_some hok)
    rw [hrec]
  have hsub := filterMap_label_sublist _ hlbl PERIODS
  refine ⟨by rw [hcp], hsub, ?_, ?_⟩
  · have := hsub.length_le
    simpa using this
  · intro p cp? hz
    apply computePeriod_skip
    rcases hz with hz | hz <;> rw [hz] <;> rfl

unseal Rat.mul Rat.add Rat.sub Rat.inv in
/-- Witness for C5 at a concrete input. -/
theorem claim5_skip_and_order_witness :
    c1Out.periods.map PeriodResult.period =
        ["1주일 전", "1개월 전", "3개월 전", "6개월 전", "1년 전"] ∧
    List.Sublist (c1Out.periods.map PeriodResult.period) (PERIODS.map Period.label) ∧
    c1Out.periods.length ≤ PERIODS.length :=
  ⟨by decide,
   (claim5_skip_and_order [100] none [some 10] 50 100 2026 c1Out (by decide)).2.1,
   (claim5_skip_and_order [100] none [some 10] 50 100 2026 c1Out (by decide)).2.2.1⟩

/-- Mismatched-length inputs for the C6 counterexample: two timestamps,
one adjusted price, two raw prices. Evaluation completes normally. -/
def c6Out : Output :=
  match runEvaluation [100, 200] (some [some 10]) (some [some 10, some 20])
      100 1000 2026 with
  | .ok o => o
  | .error _ => ⟨0, 0, []⟩

unseal Rat.mul Rat.add Rat.sub Rat.inv in
/-- C6 counterexample: the three parallel arrays have mismatched lengths
(2, 1 and 2), yet the evaluation does not abort — it completes with five
emitted results, reading the out-of-range adjusted index as an absent
price. -/
theorem claim6_counterexample :
    ([100, 200] : List ℤ).length = 2 ∧
    ([some 10] : List (Option ℚ)).length = 1 ∧
    ([some 10, some 20] : List (Option ℚ)).length = 2 ∧
    runEvaluation [100, 200] (some [some 10]) (some [some 10, some 20])
      100 1000 2026 = .ok c6Out ∧
    c6Out.periods.length = 5 := by
  decide

/-- C6 amended: mismatched array lengths are not themselves detected
(out-of-range reads behave as absent prices); what does abort the whole
evaluation with a single failure — producing no results at all — is a
missing raw-price array, or a period body that throws on missing required
raw-price data. -/
theorem claim6_missing_raw_amended (ts : List ℤ)
    (adj? : Option (List (Option ℚ))) (inv : ℚ) (ed cy : ℤ) :
    (∃ e, runEvaluation ts adj? none inv ed cy = .error e) ∧
    (∀ (raw : List (Option ℚ)) (p : Period), p ∈ PERIODS →
      (∀ v, computePeriod ts (jsOr adj? raw) raw (idx raw (raw.length - 1))
          inv ed cy p ≠ .ok v) →
      (∃ e, runEvaluation ts adj? (some raw) inv ed cy = .error e) ∧
      (∀ o, runEvaluation ts adj? (some raw) inv ed cy ≠ .ok o)) := by
  refine ⟨⟨_, rfl⟩, ?_⟩
  intro raw p hp hno
  obtain ⟨e, he⟩ := mapPeriods_error _ PERIODS p hp hno
  have hrun : runEvaluation ts adj? (some raw) inv ed cy = .error e := by
    simp only [runEvaluation, he]
  refine ⟨⟨e, hrun⟩, ?_⟩
  intro o ho
  rw [hrun] at ho
  exact absurd ho (by simp)

/-- Witness for C6 (amended): a missing raw-price array aborts. -/
theorem claim6_missing_raw_amended_witness :
    ∃ e, runEvaluation [] none none 0 0 0 = .error e :=
  (claim6_missing_raw_amended [] none 0 0 0).1

/-- With one shared price array the resolved baseline pair is the same
value on both tracks. -/
theorem pastPrices_self (ts : List ℤ) (x : List (Option ℚ)) (ed cy : ℤ)
    (p : Period) :
    (pastPrices ts x x ed cy p).1 = (pastPrices ts x x ed cy p).2 := by
  cases hlb : p.lookback with
  | daysBack d => simp [pastPrices, hlb]
  | yearAvg y =>
    simp only [pastPrices, hlb]
    cases hg : getYearAveragePrice ts x x cy y with
    | none => rfl
    | some pr =>
      obtain ⟨a, r⟩ := pr
      have har : a = r := by
        rw [getYearAveragePrice_eq_windowMean] at hg
        simp only [windowMean] at hg
        by_cases hq : (((List.range ts.length).filter
            (qualifies ts x x (jsDateSec (cy - y) 0 1)
              (jsDateSec (cy - y) 11 31)))).length = 0
        · rw [if_pos hq] at hg
          exact absurd hg (by simp)
        · rw [if_neg hq] at hg
          injection hg with hg
          injection hg with h1 h2
          rw [← h1, ← h2]
      subst har
      rfl

/-- C7: when the adjusted-close array is entirely absent, evaluation
behaves exactly as if the adjusted series equalled the raw series
element-wise; no period body throws in this mode, and every emitted
result (day-based ones included) computes its implied shares from the
same raw value it displays as the baseline. -/
theorem claim7_degraded_mode (ts : List ℤ) (raw : List (Option ℚ))
    (inv : ℚ) (ed cy : ℤ) :
    runEvaluation ts none (some raw) inv ed cy
      = runEvaluation ts (some raw) (some raw) inv ed cy ∧
    (∀ (cp? : Option ℚ) (p : Period), ∃ v,
      computePeriod ts raw raw cp? inv ed cy p = .ok v) ∧
    (∀ o, runEvaluation ts none (some raw) inv ed cy = .ok o →
      ∀ r ∈ o.periods, r.shares = inv / r.pastPrice) := by
  refine ⟨rfl, ?_, ?_⟩
  · intro cp? p
    by_cases ht : truthy (pastPrices ts raw raw ed cy p).1 = true
    · obtain ⟨a, ha, -⟩ := truthy_iff.mp ht
      have h2 : (pastPrices ts raw raw ed cy p).2 = some a := by
        rw [← pastPrices_self, ha]
      simp only [computePeriod, ht, if_pos, h2]
      exact ⟨_, rfl⟩
    · exact ⟨none, computePeriod_skip ts raw raw cp? inv ed cy p
        (by simpa using ht)⟩
  · intro o ho r hr
    obtain ⟨cp, hcp, ho'⟩ := runEvaluation_ok ts none raw inv ed cy o ho
    subst ho'
    simp only [List.mem_filterMap] at hr
    obtain ⟨p, hp, hokj⟩ := hr
    obtain ⟨a, rawP, hpair, hane, hrec⟩ :=
      computePeriod_ok_some ts (jsOr none raw) raw (some cp) inv ed cy p r
        (okJoin_eq_some hokj)
    subst hrec
    have hself := pastPrices_self ts raw ed cy p
    rw [show jsOr none raw = raw from rfl] at hpair
    rw [hpair] at hself
    injection hself with har
    simp only [har]

unseal Rat.mul Rat.add Rat.sub Rat.inv in
/-- Witness for C7: in the degraded run of the C1 scenario the emitted
record's shares are the investment divided by its displayed raw
baseline. -/
theorem claim7_degraded_mode_witness :
    c1Res.shares = 50 / c1Res.pastPrice :=
  (claim7_degraded_mode [100] [some 10] 50 100 2026).2.2 c1Out (by decide)
    c1Res (by decide)

/-- The period body's control flow — throw, skip or emit, and the label
of an emitted record — does not depend on the investment amount. -/
theorem computePeriod_shape (ts : List ℤ) (ps rs : List (Option ℚ))
    (cp? : Option ℚ) (inv inv' : ℚ) (ed cy : ℤ) (p : Period) :
    Except.map (Option.map PeriodResult.period)
        (computePeriod ts ps rs cp? inv ed cy p)
      = Except.map (Option.map PeriodResult.period)
        (computePeriod ts ps rs cp? inv' ed cy p) := by
  simp only [computePeriod]
  by_cases ht : truthy (pastPrices ts ps rs ed cy p).1 = true
  · rw [if_pos ht, if_pos ht]
    cases (pastPrices ts ps rs ed cy p).2 <;> rfl
  · rw [if_neg ht, if_neg ht]

/-- Pointwise shape-equal bodies give shape-equal mapped lists. -/
theorem mapPeriods_shape (f g : Period → Except String (Option PeriodResult))
    (hfg : ∀ p, Except.map (Option.map PeriodResult.period) (f p)
              = Except.map (Option.map PeriodResult.period) (g p)) :
    ∀ l, Except.map (List.map (Option.map PeriodResult.period)) (mapPeriods f l)
       = Except.map (List.map (Option.map PeriodResult.period)) (mapPeriods g l) := by
  intro l
  induction l with
  | nil => rfl
  | cons p ps ih =>
    simp only [mapPeriods]
    have h := hfg p
    cases hf : f p with
    | error e =>
      rw [hf] at h
      cases hg : g p with
      | error e' =>
        rw [hg] at h
        simp only [Except.map] at h
        injection h with h
        rw [h]
      | ok w =>
        rw [hg] at h
        exact absurd h (by simp [Except.map])
    | ok v =>
      rw [hf] at h
      cases hg : g p with
      | error e' =>
        rw [hg] at h
        exact absurd h (by simp [Except.map])
      | ok w =>
        rw [hg] at h
        simp only [Except.map] at h
        injection h with h
        cases hmf : mapPeriods f ps with
        | error e₁ =>
          rw [hmf] at ih
          cases hmg : mapPeriods g ps with
          | error e₂ =>
            rw [hmg] at ih
            simp only [Except.map] at ih
            injection ih with ih
            rw [ih]
          | ok rs' =>
            rw [hmg] at ih
            exact absurd ih (by simp [Except.map])
        | ok rs =>
          rw [hmf] at ih
          cases hmg : mapPeriods g ps with
          | error e₂ =>
            rw [hmg] at ih
            exact absurd ih (by simp [Except.map])
          | ok rs' =>
            rw [hmg] at ih
            simp only [Except.map] at ih
            injection ih with ih
            simp only [Except.map, List.map_cons, h, ih]

/-- A truthy adjusted baseline with a present raw baseline always emits a
record, whose shares are the investment over the adjusted baseline. -/
theorem computePeriod_emits (ts : List ℤ) (ps rs : List (Option ℚ))
    (cp? : Option ℚ) (inv : ℚ) (ed cy : ℤ) (p : Period)
    (ht : truthy (pastPrices ts ps rs ed cy p).1 = true)
    (hb : (pastPrices ts ps rs ed cy p).2 ≠ none) :
    ∃ r, computePeriod ts ps rs cp? inv ed cy p = .ok (some r) ∧
      r.shares = inv / (pastPrices ts ps rs ed cy p).1.getD 0 := by
  obtain ⟨b, hb'⟩ := Option.ne_none_iff_exists'.mp hb
  have h : computePeriod ts ps rs cp? inv ed cy p =
      .ok (some ⟨p.label, b, inv / (pastPrices ts ps rs ed cy p).1.getD 0,
        inv / (pastPrices ts ps rs ed cy p).1.getD 0 * cp?.getD 0,
        inv / (pastPrices ts ps rs ed cy p).1.getD 0 * cp?.getD 0 - inv,
        (inv / (pastPrices ts ps rs ed cy p).1.getD 0 * cp?.getD 0 - inv) / inv * 100,
        decide (0 ≤ inv / (pastPrices ts ps rs ed cy p).1.getD 0 * cp?.getD 0 - inv),
        p.useYearAvg⟩) := by
    simp only [computePeriod, ht, if_pos, hb']
  exact ⟨_, h, rfl⟩

/-- C9: with investment 0 the run errs and emits exactly where it would
for any other investment, a period with a resolvable baseline still
emits, and every emitted record carries zero implied shares. -/
theorem claim9_zero_investment (ts : List ℤ) (adj? : Option (List (Option ℚ)))
    (raw : List (Option ℚ)) (ed cy : ℤ) :
    (∀ inv : ℚ,
      Except.map (fun o => o.periods.map PeriodResult.period)
          (runEvaluation ts adj? (some raw) inv ed cy)
        = Except.map (fun o => o.periods.map PeriodResult.period)
          (runEvaluation ts adj? (some raw) 0 ed cy)) ∧
    (∀ (p : Period) (cp? : Option ℚ),
      truthy (pastPrices ts (jsOr adj? raw) raw ed cy p).1 = true →
      (pastPrices ts (jsOr adj? raw) raw ed cy p).2 ≠ none →
      ∃ r, computePeriod ts (jsOr adj? raw) raw cp? 0 ed cy p = .ok (some r) ∧
        r.shares = 0) ∧
    (∀ o, runEvaluation ts adj? (some raw) 0 ed cy = .ok o →
      ∀ r ∈ o.periods, r.shares = 0) := by
  refine ⟨?_, ?_, ?_⟩
  case refine_2 =>
    intro p cp? ht hb
    obtain ⟨r, hr, hsh⟩ :=
      computePeriod_emits ts (jsOr adj? raw) raw cp? 0 ed cy p ht hb
    exact ⟨r, hr, by rw [hsh]; exact zero_div _⟩
  · intro inv
    have hms := mapPeriods_shape _ _
      (fun p => computePeriod_shape ts (jsOr adj? raw) raw
        (idx raw (raw.length - 1)) inv 0 ed cy p) PERIODS
    simp only [runEvaluation]
    cases hf : mapPeriods (computePeriod ts (jsOr adj? raw) raw
        (idx raw (raw.length - 1)) inv ed cy) PERIODS with
    | error e =>
      rw [hf] at hms
      cases hg : mapPeriods (computePeriod ts (jsOr adj? raw) raw
          (idx raw (raw.length - 1)) 0 ed cy) PERIODS with
      | error e' =>
        rw [hg] at hms
        simp only [Except.map] at hms
        injection hms with hms
        rw [hms]
      | ok rs' =>
        rw [hg] at hms
        exact absurd hms (by simp [Except.map])
    | ok rs =>
      rw [hf] at hms
      cases hg : mapPeriods (computePeriod ts (jsOr adj? raw) raw
          (idx raw (raw.length - 1)) 0 ed cy) PERIODS with
      | error e' =>
        rw [hg] at hms
        exact absurd hms (by simp [Except.map])
      | ok rs' =>
        rw [hg] at hms
        simp only [Except.map] at hms
        injection hms with hms
        cases idx raw (raw.length - 1) with
        | none => rfl
        | some cp =>
          simp only [Except.map]
          have hcg := congrArg (List.filterMap id) hms
          rw [List.filterMap_map, List.filterMap_map] at hcg
          rw [List.map_filterMap, List.map_filterMap]
          simpa [Function.comp] using hcg
  · intro o ho r hr
    obtain ⟨cp, hcp, ho'⟩ := runEvaluation_ok ts adj? raw 0 ed cy o ho
    subst ho'
    simp only [List.mem_filterMap] at hr
    obtain ⟨p, hp, hokj⟩ := hr
    obtain ⟨a, rawP, hpair, hane, hrec⟩ :=
      computePeriod_ok_some ts (jsOr adj? raw) raw (some cp) 0 ed cy p r
        (okJoin_eq_some hokj)
    subst hrec
    simp

/-- The zero-investment run of the C9 witness scenario. -/
def c9Out : Output :=
  match runEvaluation [100] none (some [some 10]) 0 100 2026 with
  | .ok o => o
  | .error _ => ⟨0, 0, []⟩

unseal Rat.mul Rat.add Rat.sub Rat.inv in
/-- Witness for C9: the zero-investment run still emits its five
day-based records and the first has zero shares. -/
theorem claim9_zero_investment_witness :
    (Except.map (fun o => o.periods.map PeriodResult.period)
        (runEvaluation [100] none (some [some 10]) 7 100 2026)
      = Except.map (fun o => o.periods.map PeriodResult.period)
        (runEvaluation [100] none (some [some 10]) 0 100 2026)) ∧
    c9Out.periods.length = 5 ∧
    (c9Out.periods.getD 0 ⟨"", 1, 1, 1, 1, 1, false, false⟩).shares = 0 :=
  ⟨(claim9_zero_investment [100] none [some 10] 100 2026).1 7,
   by decide,
   (claim9_zero_investment [100] none [some 10] 100 2026).2.2 c9Out (by decide)
     (c9Out.periods.getD 0 ⟨"", 1, 1, 1, 1, 1, false, false⟩) (by decide)⟩

/-- C10: the day-based skip guard checks only the adjusted price of the
selected point and the raw price at the same index is dereferenced
unchecked; so every period body returns without throwing whenever each
index with a truthy adjusted price has a present raw price (and the whole
run succeeds when additionally the current raw price is present), while
without that precondition a day period can throw — as the final conjunct
shows on a series whose selected point has a truthy adjusted price but a
missing raw price. -/
theorem claim10_raw_presence (ts : List ℤ) (ps rs : List (Option ℚ))
    (cp? : Option ℚ) (inv : ℚ) (ed cy : ℤ)
    (hP : ∀ i, truthy (idx ps i) = true → idx rs i ≠ none) :
    (∀ p ∈ PERIODS, ∃ v, computePeriod ts ps rs cp? inv ed cy p = .ok v) ∧
    (∀ cp, idx rs (rs.length - 1) = some cp →
      ∃ o, runEvaluation ts (some ps) (some rs) inv ed cy = .ok o) ∧
    computePeriod [0] [some 5] [] none 1 0 2026 ⟨"1주일 전", .daysBack 7⟩
      = .error "TypeError: toFixed of missing pastRawPrice" := by
  have hbody : ∀ (c? : Option ℚ) (p : Period), ∃ v,
      computePeriod ts ps rs c? inv ed cy p = .ok v := by
    intro c? p
    by_cases ht : truthy (pastPrices ts ps rs ed cy p).1 = true
    · cases hlb : p.lookback with
      | yearAvg y =>
        simp only [pastPrices, hlb] at ht ⊢
        cases hg : getYearAveragePrice ts ps rs cy y with
        | none => rw [hg] at ht; exact absurd ht (by simp [truthy])
        | some pr =>
          rw [hg] at ht
          simp only [computePeriod, pastPrices, hlb, hg, ht, if_pos]
          exact ⟨_, rfl⟩
      | daysBack d =>
        simp only [pastPrices, hlb] at ht
        have hraw := hP _ ht
        obtain ⟨b, hb⟩ := Option.ne_none_iff_exists'.mp hraw
        simp only [computePeriod, pastPrices, hlb, ht, if_pos, hb]
        exact ⟨_, rfl⟩
    · exact ⟨none, computePeriod_skip ts ps rs c? inv ed cy p
        (by simpa using ht)⟩
  refine ⟨fun p _ => hbody cp? p, ?_, by decide⟩
  intro cp hcp
  obtain ⟨rs', hrs'⟩ := mapPeriods_total
    (computePeriod ts (jsOr (some ps) rs) rs (idx rs (rs.length - 1)) inv ed cy)
    PERIODS (fun p _ => hbody (idx rs (rs.length - 1)) p)
  rw [hcp] at hrs'
  refine ⟨⟨cp, inv, rs'.filterMap id⟩, ?_⟩
  simp only [runEvaluation, hcp, hrs']

/-- Witness for C10: the precondition holds on a one-point series, so all
nine period bodies return and the run succeeds. -/
theorem claim10_raw_presence_witness :
    (∀ p ∈ PERIODS, ∃ v,
      computePeriod [100] [some 10] [some 10] none 50 100 2026 p = .ok v) ∧
    (∀ cp, idx [some 10] (([some 10] : List (Option ℚ)).length - 1) = some cp →
      ∃ o, runEvaluation [100] (some [some 10]) (some [some 10]) 50 100 2026
        = .ok o) ∧
    computePeriod [0] [some 5] [] none 1 0 2026 ⟨"1주일 전", .daysBack 7⟩
      = .error "TypeError: toFixed of missing pastRawPrice" :=
  claim10_raw_presence [100] [some 10] [some 10] none 50 100 2026
    (fun i => by cases i <;> simp [idx, truthy])

end BackTracking
